import Mathlib

/-!
Verification of the pwndbg stack-tracking and canary-detection core.

This file shallowly embeds the two source modules
`pwndbg/gdblib/stack.py` and `pwndbg/commands/canary.py`.
Machine integers are modelled by `Int` (Python integers are arbitrary
precision and signed); unsigned pointer-width reads are modelled by `Nat`
where the source only ever manipulates unsigned values.  External
collaborators (registers, memory reads, auxiliary vector, ELF headers,
the mapped-memory predicate) are parameters of the definitions.
-/

namespace Pwndbg

/-- The page size used by the source, `pwndbg.gdblib.memory.PAGE_SIZE = 0x1000`. -/
def PAGE_SIZE : Int := 0x1000

/-- Modelled from the spec: `pwndbg.lib.memory.Page` (not under `src/`) is a
contiguous address range `{start, size, permissions, optional label}`; the
attributes read by `stack.py` are `vaddr` (start), `memsz` (size), `flags`
and `objfile`.  The constructor order matches
`Page(start, size, flags, offset, objfile)`. -/
structure Page where
  vaddr : Int
  memsz : Int
  flags : Nat
  offset : Int
  objfile : Option String
deriving DecidableEq

/-- Modelled from the spec: containment in a Page is
`start ≤ addr < start + size` (spec §3: "`start ≤ addr < start+size`
defines containment"), the meaning of Python's `address in stack`. -/
def Page.containsP (p : Page) (a : Int) : Prop :=
  p.vaddr ≤ a ∧ a < p.vaddr + p.memsz

instance (p : Page) (a : Int) : Decidable (p.containsP a) :=
  inferInstanceAs (Decidable (p.vaddr ≤ a ∧ a < p.vaddr + p.memsz))

/-- A gdb thread identity: `thread.ptid` is the tuple `(pid, tid, lwp)`;
the source destructures it as `pid, tid, _ = thread.ptid`. -/
structure Ptid where
  pid : Int
  tid : Int
  lwp : Int
deriving DecidableEq

/-- Python dict read `stacks.get(ptid, None)` over the insertion-ordered
association list that models the `stacks` dictionary. -/
def dictGet : List (Ptid × Page) → Ptid → Option Page
  | [], _ => none
  | (k, v) :: rest, t => if k = t then some v else dictGet rest t

/-- Python dict write `stacks[ptid] = page`: replaces the value of an
existing key in place, otherwise appends in insertion order. -/
def dictSet : List (Ptid × Page) → Ptid → Page → List (Ptid × Page)
  | [], t, v => [(t, v)]
  | (k, w) :: rest, t, v =>
      if k = t then (t, v) :: rest else (k, w) :: dictSet rest t v

/-- Modelled from the spec: `pwndbg.lib.memory.page_align` (not under
`src/`) aligns an address down to a page boundary.  For every Python
integer `x`, both `x & ~0xFFF` (used inline in `update`) and
`page_align(x)` equal `x - x % 0x1000` with floor/Euclidean remainder. -/
def page_align (x : Int) : Int := x - x % PAGE_SIZE

/-- Modelled from the spec: `pwndbg.gdblib.memory.find_upper_boundary`
(not under `src/`) probes forward one page at a time, bounded by
`max_pages`, using the external "is this address backed by valid memory"
predicate, and returns the first unmapped page's start address; if
`max_pages` is exhausted while still mapped, the last probed boundary is
returned as an approximation (spec §4.1, §7). -/
def find_upper_boundary (mapped : Int → Bool) : Int → Nat → Int
  | addr, 0 => addr
  | addr, n + 1 =>
      if mapped addr then find_upper_boundary mapped (addr + PAGE_SIZE) n else addr

/-- One gdb thread as seen by `update()`: its ptid and the value of the
stack-pointer register read after switching to it (`None` when the
register is unavailable). -/
structure GdbThread where
  ptid : Ptid
  sp : Option Int

/-- The external collaborators consumed by `stack.py`: whether the ABI is
Linux-style (`pwndbg.gdblib.abi.linux`), the mapped-memory predicate
backing boundary probing, the ELF program-header types of the running
executable, and the thread list of the selected inferior. -/
structure UpdateEnv where
  linux : Bool
  mapped : Int → Bool
  phdrs : List Nat
  threads : List GdbThread

/-- `find_upper_stack_boundary(stack_ptr, max_pages=1024)`: page-align the
stack pointer; on a non-Linux ABI return exactly one page past the aligned
pointer, otherwise probe with `find_upper_boundary`. -/
def find_upper_stack_boundary (env : UpdateEnv) (stack_ptr : Int) (max_pages : Nat) : Int :=
  let aligned := page_align stack_ptr
  if env.linux then find_upper_boundary env.mapped aligned max_pages
  else aligned + PAGE_SIZE

/-- The ELF program-header type constant `PT_GNU_STACK = 0x6474E551`. -/
def PT_GNU_STACK : Nat := 0x6474E551

/-- The value left in the module-level `nx` flag by `is_executable()`:
true iff some program header has type `PT_GNU_STACK`. -/
def nxOf (phdrs : List Nat) : Bool :=
  phdrs.any (fun t => t == PT_GNU_STACK)

/-- `is_executable()`: scans the program headers, records `nx`, and
returns `not nx`. -/
def is_executable (phdrs : List Nat) : Bool :=
  ! nxOf phdrs

/-- The mutable module-level state of `stack.py` plus gdb's "currently
selected thread" resource: `stacks` is the ptid → Page dictionary, `nx`
the stack-NX flag, `selected` the thread gdb currently inspects. -/
structure GdbState where
  selected : Option Ptid
  stackRanges : List (Ptid × Page)
  nx : Bool
deriving DecidableEq

/-- The Page built by `update()` for a previously unknown thread:
`start = sp_low = (sp & ~0xFFF) - 0x1000`, `stop` from
`find_upper_stack_boundary(sp)` (with the default `max_pages = 1024`),
size `stop - start`, flags `6` when the stack is non-executable and `7`
otherwise, offset `0`, label `"[stack]"`. -/
def newPage (env : UpdateEnv) (sp : Int) : Page :=
  let start := page_align sp - 0x1000
  let stop := find_upper_stack_boundary env sp 1024
  ⟨start, stop - start, if ! is_executable env.phdrs then 6 else 7, 0, some "[stack]"⟩

/-- How `update()` mutates the Page of an already-known thread: when its
label is `None`, relabel it `"[stack]"` for the leader thread
(`pid == tid`) and `"[stack:<tid>]"` otherwise; then, when the newly
observed `sp_low` is below the current lower bound, grow the Page
downward (`memsz += vaddr - low; vaddr = low`). -/
def updatedPage (t : GdbThread) (sp : Int) (page0 : Page) : Page :=
  let sp_low := page_align sp - 0x1000
  let label :=
    if t.ptid.pid = t.ptid.tid then "[stack]"
    else "[stack:" ++ toString t.ptid.tid ++ "]"
  let page1 :=
    if page0.objfile = none then { page0 with objfile := some label }
    else page0
  let low := min page1.vaddr sp_low
  if low = page1.vaddr then page1
  else { page1 with memsz := page1.memsz + (page1.vaddr - low), vaddr := low }

/-- The body of one iteration of the `update()` loop, after the switch to
thread `t` (the part that mutates `stacks`/`nx`): skip a missing or zero
stack pointer; record `newPage` for an unknown thread (also recording the
`nx` flag computed by `is_executable()`), and `updatedPage` for a known
one. -/
def processThreadBody (env : UpdateEnv) (t : GdbThread) (s : GdbState) : GdbState :=
  match t.sp with
  | none => s
  | some sp =>
    if sp = 0 then s
    else
      match dictGet s.stackRanges t.ptid with
      | none =>
          { s with stackRanges := dictSet s.stackRanges t.ptid (newPage env sp),
                   nx := nxOf env.phdrs }
      | some page0 =>
          { s with stackRanges := dictSet s.stackRanges t.ptid (updatedPage t sp page0) }

/-- The `for thread in ... threads()` loop of `update()`; each iteration
first performs `thread.switch()` (redirecting the selected-thread
resource) and then runs the body.  `failAt = some i` models an exception
interrupting the loop at iteration `i`, after the switch and before the
body (e.g. a failing register read); the Bool result records whether the
loop was so interrupted. -/
def updateLoop (env : UpdateEnv) (failAt : Option Nat) :
    Nat → List GdbThread → GdbState → GdbState × Bool
  | _, [], s => (s, false)
  | i, t :: rest, s =>
      let s1 := { s with selected := some t.ptid }
      if failAt = some i then (s1, true)
      else updateLoop env failAt (i + 1) rest (processThreadBody env t s1)

/-- `update()`: remember `gdb.selected_thread()`, run the per-thread loop
inside `try`, and in `finally` switch back to the remembered thread — but
only when one was remembered (`if curr_thread:`).  The Bool result
records whether an exception escaped the loop. -/
def update (env : UpdateEnv) (failAt : Option Nat) (s : GdbState) : GdbState × Bool :=
  let curr := s.selected
  let (s1, failed) := updateLoop env failAt 0 env.threads s
  (match curr with
   | some _ => { s1 with selected := curr }
   | none => s1, failed)

/-- The `for stack in stacks.values(): if address in stack: return stack`
scan inside `find`, over the insertion-ordered dictionary values. -/
def findInStacks : List (Ptid × Page) → Int → Option Page
  | [], _ => none
  | (_, p) :: rest, a => if p.containsP a then some p else findInStacks rest a

/-- `find(address)`: triggers `update()` first when no ranges are known,
then returns the first tracked Page containing `address`. -/
def find (env : UpdateEnv) (s : GdbState) (a : Int) : Option Page :=
  let s1 := if s.stackRanges = [] then (update env none s).1 else s
  findInStacks s1.stackRanges a

/-- `clear()`: empties the stack dictionary and resets the `nx` flag,
leaving the selected thread untouched. -/
def clear (s : GdbState) : GdbState :=
  { s with stackRanges := [], nx := false }

/-- `canary_value()` from `commands/canary.py`: look up `AT_RANDOM` in the
auxiliary vector; when absent return `(None, None)`, otherwise read a
pointer-width value there and mask off its low byte with
`ptrmask ^ 0xFF`. -/
def canary_value (at_random : Option Nat) (pvoid : Nat → Nat) (ptrmask : Nat) :
    Option Nat × Option Nat :=
  match at_random with
  | none => (none, none)
  | some a => (some (pvoid a &&& (ptrmask ^^^ 0xFF)), some a)

/-- Modelled from the spec: `pwndbg.gdblib.arch.ptrmask` (not under
`src/`) is the architecture's pointer-width mask, all ones across
`8 * ptrsize` bits. -/
def ptrmaskOf (ptrsize : Nat) : Nat := 2 ^ (8 * ptrsize) - 1

/-- The per-thread loop of the `canary` command, with the byte-pattern
search collaborator's results supplied as each thread's ascending match
list.  Accumulates `found_canaries`, `results_hidden` and the list of
matches actually displayed: a thread with no matches is skipped; the
number displayed is the full count, capped at 2 unless `showAll`;
`results_hidden` is set when a thread displayed fewer than it found. -/
def canaryLoop (showAll : Bool) (found hidden : Bool) (disp : List (Ptid × List Int)) :
    List (Ptid × List Int) → Bool × Bool × List (Ptid × List Int)
  | [] => (found, hidden, disp)
  | (tid, stack_canaries) :: rest =>
      if stack_canaries = [] then canaryLoop showAll found hidden disp rest
      else
        let n := if showAll then stack_canaries.length else min 2 stack_canaries.length
        canaryLoop showAll true (hidden || decide (n < stack_canaries.length))
          (disp ++ [(tid, stack_canaries.take n)]) rest

/-- The observable outcome of `canary(all)`'s search phase:
`(found_canaries, results_hidden, displayed matches per thread)`. -/
def canary (showAll : Bool) (threadMatches : List (Ptid × List Int)) :
    Bool × Bool × List (Ptid × List Int) :=
  canaryLoop showAll false false [] threadMatches

/-- The `while start <= sp < stop` loop of `find_addr_on_stack`: read the
pointer-width value at `sp`, return `sp` on a match, otherwise step by
`ptrsize`; falling out of the bounds returns the initial `stackaddr = 0`.
`ptrsize` is positive on every architecture, which the recursion needs to
terminate. -/
def scanStack (mem : Int → Int) (addr start stop ptrsize : Int)
    (hps : 0 < ptrsize) (sp : Int) : Int :=
  if _h : start ≤ sp ∧ sp < stop then
    if mem sp = addr then sp
    else scanStack mem addr start stop ptrsize hps (sp + ptrsize)
  else 0
termination_by (stop - sp).toNat
decreasing_by omega

/-- `find_addr_on_stack(addr)`: scan from the current stack pointer
through the bounds of the Page found for it (`start = stack.vaddr`,
`stop = start + stack.memsz`). -/
def find_addr_on_stack (mem : Int → Int) (addr : Int) (stack : Page)
    (ptrsize : Int) (hps : 0 < ptrsize) (sp : Int) : Int :=
  scanStack mem addr stack.vaddr (stack.vaddr + stack.memsz) ptrsize hps sp

/-! Helper lemmas about the dictionary model. -/

theorem dictGet_dictSet_self (l : List (Ptid × Page)) (k : Ptid) (v : Page) :
    dictGet (dictSet l k v) k = some v := by
  induction l with
  | nil => simp [dictGet, dictSet]
  | cons e rest ih =>
    obtain ⟨k0, w⟩ := e
    by_cases h : k0 = k
    · simp [dictGet, dictSet, h]
    · simp [dictGet, dictSet, h, ih]

theorem dictGet_dictSet_ne (l : List (Ptid × Page)) (k : Ptid) (v : Page)
    (k' : Ptid) (h : k' ≠ k) :
    dictGet (dictSet l k v) k' = dictGet l k' := by
  have h' : k ≠ k' := Ne.symm h
  induction l with
  | nil => simp [dictGet, dictSet, h']
  | cons e rest ih =>
    obtain ⟨k0, w⟩ := e
    by_cases hk : k0 = k
    · subst hk
      simp [dictGet, dictSet, h']
    · by_cases hk' : k0 = k' <;> simp [dictGet, dictSet, hk, hk', ih, h, h']

theorem dictGet_mem (l : List (Ptid × Page)) (k : Ptid) (p : Page)
    (h : dictGet l k = some p) : (k, p) ∈ l := by
  induction l with
  | nil => simp [dictGet] at h
  | cons e rest ih =>
    obtain ⟨k0, w⟩ := e
    by_cases hk : k0 = k
    · subst hk
      simp [dictGet] at h
      simp [h]
    · simp [dictGet, hk] at h
      exact List.mem_cons_of_mem _ (ih h)

theorem exists_contains_dictSet (l : List (Ptid × Page)) (k : Ptid) (v : Page) (a : Int)
    (hmono : ∀ q, dictGet l k = some q → q.containsP a → v.containsP a)
    (h : ∃ e ∈ l, e.2.containsP a) :
    ∃ e ∈ dictSet l k v, e.2.containsP a := by
  induction l with
  | nil => simp at h
  | cons e0 rest ih =>
    obtain ⟨k0, w⟩ := e0
    obtain ⟨e, he, hc⟩ := h
    by_cases hk : k0 = k
    · subst hk
      rcases List.mem_cons.mp he with he | he
      · subst he
        refine ⟨(k0, v), ?_, ?_⟩
        · simp [dictSet]
        · exact hmono w (by simp [dictGet]) hc
      · refine ⟨e, ?_, hc⟩
        simp only [dictSet, if_pos rfl]
        exact List.mem_cons_of_mem _ he
    · rcases List.mem_cons.mp he with he | he
      · subst he
        refine ⟨(k0, w), ?_, hc⟩
        simp only [dictSet, if_neg hk]
        exact List.mem_cons_self _ _
      · obtain ⟨e', he', hc'⟩ := ih (by simpa [dictGet, hk] using hmono) ⟨e, he, hc⟩
        refine ⟨e', ?_, hc'⟩
        simp only [dictSet, if_neg hk]
        exact List.mem_cons_of_mem _ he'

/-! Helper lemmas about `findInStacks`. -/

theorem findInStacks_some_contains (l : List (Ptid × Page)) (a : Int) (p : Page)
    (h : findInStacks l a = some p) : (∃ e ∈ l, e.2 = p) ∧ p.containsP a := by
  induction l with
  | nil => simp [findInStacks] at h
  | cons e0 rest ih =>
    obtain ⟨k0, w⟩ := e0
    by_cases hc : w.containsP a
    · simp [findInStacks, hc] at h
      subst h
      exact ⟨⟨(k0, w), by simp⟩, hc⟩
    · simp [findInStacks, hc] at h
      obtain ⟨⟨e, he, hep⟩, hcp⟩ := ih h
      exact ⟨⟨e, List.mem_cons_of_mem _ he, hep⟩, hcp⟩

theorem findInStacks_some_of_exists (l : List (Ptid × Page)) (a : Int)
    (h : ∃ e ∈ l, e.2.containsP a) :
    ∃ e ∈ l, findInStacks l a = some e.2 ∧ e.2.containsP a := by
  induction l with
  | nil => simp at h
  | cons e0 rest ih =>
    obtain ⟨k0, w⟩ := e0
    by_cases hc : w.containsP a
    · exact ⟨(k0, w), by simp, by simp [findInStacks, hc], hc⟩
    · obtain ⟨e, he, hce⟩ := h
      rcases List.mem_cons.mp he with he | he
      · subst he
        exact absurd hce hc
      · obtain ⟨e', he', hfind, hc'⟩ := ih ⟨e, he, hce⟩
        exact ⟨e', List.mem_cons_of_mem _ he', by simp [findInStacks, hc, hfind], hc'⟩

theorem findInStacks_isSome_of_exists (l : List (Ptid × Page)) (a : Int)
    (h : ∃ e ∈ l, e.2.containsP a) : (findInStacks l a).isSome = true := by
  obtain ⟨e, _, hfind, _⟩ := findInStacks_some_of_exists l a h
  simp [hfind]

theorem entries_eq_of_same_key (l : List (Ptid × Page))
    (hkeys : (l.map Prod.fst).Nodup) (e1 e2 : Ptid × Page)
    (h1 : e1 ∈ l) (h2 : e2 ∈ l) (hk : e1.1 = e2.1) : e1 = e2 := by
  induction l with
  | nil => simp at h1
  | cons e0 rest ih =>
    simp only [List.map_cons, List.nodup_cons] at hkeys
    rcases List.mem_cons.mp h1 with h1 | h1 <;> rcases List.mem_cons.mp h2 with h2 | h2
    · rw [h1, h2]
    · exact absurd (List.mem_map.mpr ⟨e2, h2, hk.symm.trans (congrArg Prod.fst h1)⟩)
        hkeys.1
    · exact absurd (List.mem_map.mpr ⟨e1, h1, hk.trans (congrArg Prod.fst h2)⟩)
        hkeys.1
    · exact ih hkeys.2 h1 h2

/-! Helper lemmas about page mutation and the update loop. -/

theorem updatedPage_vaddr_le (t : GdbThread) (sp : Int) (p : Page) :
    (updatedPage t sp p).vaddr ≤ p.vaddr := by
  unfold updatedPage
  by_cases hob : p.objfile = none <;> simp only [hob, if_pos, if_neg, ite_true, ite_false] <;>
    split <;> simp

theorem updatedPage_top (t : GdbThread) (sp : Int) (p : Page) :
    (updatedPage t sp p).vaddr + (updatedPage t sp p).memsz = p.vaddr + p.memsz := by
  unfold updatedPage
  by_cases hob : p.objfile = none <;> simp only [hob, if_pos, if_neg, ite_true, ite_false] <;>
    split <;> simp <;> omega

theorem updatedPage_contains (t : GdbThread) (sp : Int) (p : Page) (a : Int)
    (h : p.containsP a) : (updatedPage t sp p).containsP a := by
  have h1 := updatedPage_vaddr_le t sp p
  have h2 := updatedPage_top t sp p
  obtain ⟨hlo, hhi⟩ := h
  exact ⟨le_trans h1 hlo, by omega⟩

theorem processThreadBody_contains (env : UpdateEnv) (t : GdbThread) (s : GdbState) (a : Int)
    (h : ∃ e ∈ s.stackRanges, e.2.containsP a) :
    ∃ e ∈ (processThreadBody env t s).stackRanges, e.2.containsP a := by
  unfold processThreadBody
  cases hsp : t.sp with
  | none => exact h
  | some sp =>
    by_cases h0 : sp = 0
    · simpa [h0] using h
    · simp only [h0, ite_false]
      cases hget : dictGet s.stackRanges t.ptid with
      | none =>
        exact exists_contains_dictSet _ _ _ _ (fun q hq => by rw [hget] at hq; cases hq) h
      | some page0 =>
        refine exists_contains_dictSet _ _ _ _ (fun q hq hc => ?_) h
        rw [hget] at hq
        cases hq
        exact updatedPage_contains t sp page0 a hc

theorem updateLoop_contains (env : UpdateEnv) (failAt : Option Nat) (a : Int) :
    ∀ (ts : List GdbThread) (i : Nat) (s : GdbState),
      (∃ e ∈ s.stackRanges, e.2.containsP a) →
      ∃ e ∈ ((updateLoop env failAt i ts s).1).stackRanges, e.2.containsP a := by
  intro ts
  induction ts with
  | nil => intro i s h; exact h
  | cons t rest ih =>
    intro i s h
    unfold updateLoop
    split
    · exact h
    · exact ih (i + 1) _ (processThreadBody_contains env t _ a h)

theorem update_stackRanges (env : UpdateEnv) (failAt : Option Nat) (s : GdbState) :
    ((update env failAt s).1).stackRanges
      = ((updateLoop env failAt 0 env.threads s).1).stackRanges := by
  unfold update
  cases s.selected <;> simp

theorem processThreadBody_mono (env : UpdateEnv) (t : GdbThread) (s : GdbState)
    (k : Ptid) (p : Page) (h : dictGet s.stackRanges k = some p) :
    ∃ p', dictGet (processThreadBody env t s).stackRanges k = some p'
      ∧ p'.vaddr ≤ p.vaddr ∧ p'.vaddr + p'.memsz = p.vaddr + p.memsz := by
  unfold processThreadBody
  cases hsp : t.sp with
  | none => exact ⟨p, h, le_refl _, rfl⟩
  | some sp =>
    by_cases h0 : sp = 0
    · simp only [h0, ite_true]
      exact ⟨p, h, le_refl _, rfl⟩
    · simp only [h0, ite_false]
      cases hget : dictGet s.stackRanges t.ptid with
      | none =>
        have hne : k ≠ t.ptid := fun hk => by rw [hk, hget] at h; cases h
        refine ⟨p, ?_, le_refl _, rfl⟩
        rw [dictGet_dictSet_ne _ _ _ _ hne]
        exact h
      | some page0 =>
        by_cases hk : k = t.ptid
        · subst hk
          rw [hget] at h
          cases h
          refine ⟨updatedPage t sp p, ?_, updatedPage_vaddr_le t sp p, updatedPage_top t sp p⟩
          exact dictGet_dictSet_self _ _ _
        · refine ⟨p, ?_, le_refl _, rfl⟩
          rw [dictGet_dictSet_ne _ _ _ _ hk]
          exact h

theorem updateLoop_mono (env : UpdateEnv) (failAt : Option Nat) (k : Ptid) :
    ∀ (ts : List GdbThread) (i : Nat) (s : GdbState) (p : Page),
      dictGet s.stackRanges k = some p →
      ∃ p', dictGet ((updateLoop env failAt i ts s).1).stackRanges k = some p'
        ∧ p'.vaddr ≤ p.vaddr ∧ p'.vaddr + p'.memsz = p.vaddr + p.memsz := by
  intro ts
  induction ts with
  | nil => intro i s p h; exact ⟨p, h, le_refl _, rfl⟩
  | cons t rest ih =>
    intro i s p h
    unfold updateLoop
    split
    · exact ⟨p, h, le_refl _, rfl⟩
    · obtain ⟨p1, h1, hle1, htop1⟩ :=
        processThreadBody_mono env t { s with selected := some t.ptid } k p h
      obtain ⟨p2, h2, hle2, htop2⟩ := ih (i + 1) _ p1 h1
      exact ⟨p2, h2, le_trans hle2 hle1, by omega⟩

/-! Helper lemmas about boundary probing. -/

theorem find_upper_boundary_ge (mapped : Int → Bool) :
    ∀ (n : Nat) (a : Int), a ≤ find_upper_boundary mapped a n := by
  intro n
  induction n with
  | zero => intro a; exact le_refl _
  | succ n ih =>
    intro a
    unfold find_upper_boundary
    split
    · calc a ≤ a + PAGE_SIZE := by unfold PAGE_SIZE; omega
        _ ≤ _ := ih (a + PAGE_SIZE)
    · exact le_refl _

theorem find_upper_boundary_step (mapped : Int → Bool) (n : Nat) (a : Int)
    (h : mapped a = true) :
    a + PAGE_SIZE ≤ find_upper_boundary mapped a (n + 1) := by
  unfold find_upper_boundary
  rw [if_pos h]
  exact find_upper_boundary_ge mapped n (a + PAGE_SIZE)

theorem processThreadBody_fresh (env : UpdateEnv) (tptid : Ptid) (v : Int) (s : GdbState)
    (h0 : v ≠ 0) (hfresh : dictGet s.stackRanges tptid = none) :
    processThreadBody env ⟨tptid, some v⟩ s
      = { s with stackRanges := dictSet s.stackRanges tptid (newPage env v),
                 nx := nxOf env.phdrs } := by
  unfold processThreadBody
  dsimp only
  rw [if_neg h0, hfresh]

theorem processThreadBody_known (env : UpdateEnv) (tptid : Ptid) (v : Int) (s : GdbState)
    (p : Page) (h0 : v ≠ 0) (hget : dictGet s.stackRanges tptid = some p) :
    processThreadBody env ⟨tptid, some v⟩ s
      = { s with stackRanges :=
            dictSet s.stackRanges tptid (updatedPage ⟨tptid, some v⟩ v p) } := by
  unfold processThreadBody
  dsimp only
  rw [if_neg h0, hget]

theorem updatedPage_objfile_none (t : GdbThread) (sp : Int) (p : Page)
    (h : p.objfile = none) :
    (updatedPage t sp p).objfile
      = some (if t.ptid.pid = t.ptid.tid then "[stack]"
              else "[stack:" ++ toString t.ptid.tid ++ "]") := by
  unfold updatedPage
  simp only [h, ite_true, if_pos]
  split <;> rfl

theorem updatedPage_objfile_some (t : GdbThread) (sp : Int) (p : Page) (o : String)
    (h : p.objfile = some o) :
    (updatedPage t sp p).objfile = some o := by
  unfold updatedPage
  simp only [h, ite_false, reduceCtorEq, if_neg]
  split <;> simp [h]

/-! Helper lemmas about the canary mask. -/

theorem testBit_canary_mask (k i : Nat) (hk : 1 ≤ k) :
    (ptrmaskOf k ^^^ 0xFF).testBit i = (decide (8 ≤ i) && decide (i < 8 * k)) := by
  have h255 : (0xFF : Nat) = 2 ^ 8 - 1 := by norm_num
  rw [Nat.testBit_xor, ptrmaskOf, h255, Nat.testBit_two_pow_sub_one,
    Nat.testBit_two_pow_sub_one]
  by_cases h8 : i < 8
  · have hik : i < 8 * k := by omega
    simp [h8, hik, show ¬ (8 ≤ i) by omega]
  · by_cases hik : i < 8 * k <;> simp [h8, hik, show 8 ≤ i by omega]

theorem testBit_masked_canary (v k i : Nat) (hk : 1 ≤ k) :
    (v &&& (ptrmaskOf k ^^^ 0xFF)).testBit i
      = (v.testBit i && (decide (8 ≤ i) && decide (i < 8 * k))) := by
  rw [Nat.testBit_and, testBit_canary_mask k i hk]

theorem masked_canary_mod (v k : Nat) (hk : 1 ≤ k) :
    (v &&& (ptrmaskOf k ^^^ 0xFF)) % 256 = 0 := by
  have h256 : (256 : Nat) = 2 ^ 8 := by norm_num
  rw [h256]
  apply Nat.eq_of_testBit_eq
  intro i
  rw [Nat.testBit_mod_two_pow, testBit_masked_canary v k i hk, Nat.zero_testBit]
  by_cases h8 : i < 8 <;> simp [h8, show ¬ (8 ≤ i) ↔ i < 8 by omega]

/-! Helper lemma for the canary display loop. -/

theorem canaryLoop_eq (showAll : Bool) :
    ∀ (l : List (Ptid × List Int)) (f h : Bool) (d : List (Ptid × List Int)),
      canaryLoop showAll f h d l
        = (f || l.any (fun th => !th.2.isEmpty),
           h || (!showAll && l.any (fun th => decide (2 < th.2.length))),
           d ++ (l.filter (fun th => !th.2.isEmpty)).map
              (fun th => (th.1, th.2.take
                (if showAll then th.2.length else min 2 th.2.length)))) := by
  intro l
  induction l with
  | nil => intro f h d; simp [canaryLoop]
  | cons th rest ih =>
    intro f h d
    obtain ⟨tid, cs⟩ := th
    by_cases hcs : cs = []
    · subst hcs
      rw [show canaryLoop showAll f h d ((tid, []) :: rest)
            = canaryLoop showAll f h d rest from rfl]
      rw [ih]
      simp
    · have hstep : canaryLoop showAll f h d ((tid, cs) :: rest)
        = canaryLoop showAll true
            (h || decide ((if showAll then cs.length else min 2 cs.length) < cs.length))
            (d ++ [(tid, cs.take (if showAll then cs.length else min 2 cs.length))]) rest := by
        rw [canaryLoop]
        simp [hcs]
      rw [hstep, ih]
      have hdec : decide ((if showAll then cs.length else min 2 cs.length) < cs.length)
          = (!showAll && decide (2 < cs.length)) := by
        cases showAll
        · have hif : (if (false : Bool) = true then cs.length else min 2 cs.length)
              = min 2 cs.length := by simp
          rw [hif]
          simp only [Bool.not_false, Bool.true_and]
          exact decide_eq_decide.mpr (by omega)
        · simp
      rw [hdec]
      refine congrArg₂ Prod.mk ?_ (congrArg₂ Prod.mk ?_ ?_)
      · simp [hcs]
      · cases showAll <;> cases h <;> simp [Bool.or_assoc]
      · simp [hcs, List.append_assoc]

/-! Helper lemmas about the stack scanning loop. -/

theorem scanStack_not_found (mem : Int → Int) (addr start stop ptrsize : Int)
    (hps : 0 < ptrsize) :
    ∀ (n : Nat) (sp : Int), (stop - sp).toNat ≤ n → start ≤ sp →
      (∀ k : Nat, sp + k * ptrsize < stop → mem (sp + k * ptrsize) ≠ addr) →
      scanStack mem addr start stop ptrsize hps sp = 0 := by
  intro n
  induction n with
  | zero =>
    intro sp hn _ _
    rw [scanStack, dif_neg (by omega)]
  | succ n ih =>
    intro sp hn hs hnone
    rw [scanStack]
    by_cases hcond : start ≤ sp ∧ sp < stop
    · rw [dif_pos hcond]
      have h0 : mem sp ≠ addr := by simpa using hnone 0 (by simpa using hcond.2)
      rw [if_neg h0]
      apply ih (sp + ptrsize) (by omega) (by omega)
      intro j hj
      have harith : sp + ptrsize + (j : Int) * ptrsize = sp + ((j + 1 : Nat) : Int) * ptrsize := by
        push_cast
        ring
      rw [harith]
      exact hnone (j + 1) (by rw [← harith]; exact hj)
    · rw [dif_neg hcond]

theorem scanStack_found (mem : Int → Int) (addr start stop ptrsize : Int)
    (hps : 0 < ptrsize) :
    ∀ (k : Nat) (sp : Int), start ≤ sp → sp + k * ptrsize < stop →
      mem (sp + k * ptrsize) = addr →
      (∀ j : Nat, j < k → mem (sp + j * ptrsize) ≠ addr) →
      scanStack mem addr start stop ptrsize hps sp = sp + k * ptrsize := by
  intro k
  induction k with
  | zero =>
    intro sp hs hlt heq _
    rw [scanStack, dif_pos ⟨hs, by simpa using hlt⟩, if_pos (by simpa using heq)]
    simp
  | succ k ih =>
    intro sp hs hlt heq hfirst
    have harith : ∀ j : Nat,
        sp + ptrsize + (j : Int) * ptrsize = sp + ((j + 1 : Nat) : Int) * ptrsize := by
      intro j
      push_cast
      ring
    have hsp : sp < stop := by
      have hnn : (0 : Int) ≤ ((k + 1 : Nat) : Int) * ptrsize := by positivity
      linarith
    rw [scanStack, dif_pos ⟨hs, hsp⟩,
      if_neg (by simpa using hfirst 0 (Nat.succ_pos k)),
      ih (sp + ptrsize) (by omega) (by rw [harith k]; exact hlt)
        (by rw [harith k]; exact heq)
        (fun j hj => by rw [harith j]; exact hfirst (j + 1) (by omega))]
    exact harith k

/-! The claims. -/

/-- Claim C1: `canary_value` returns `(none, none)` exactly when the
auxiliary-vector lookup of `AT_RANDOM` is absent; otherwise it returns the
pointer-width value read at that address with its low 8 bits masked to
zero (bits 8 and above, up to the pointer width, are those of the value
read), paired with the unmasked source address, so every returned masked
value has low byte zero. -/
theorem canary_value_spec (pvoid : Nat → Nat) (k : Nat) (hk : 1 ≤ k) (atR : Option Nat) :
    (canary_value atR pvoid (ptrmaskOf k) = (none, none) ↔ atR = none)
    ∧ ∀ a : Nat, atR = some a →
        canary_value atR pvoid (ptrmaskOf k)
            = (some (pvoid a &&& (ptrmaskOf k ^^^ 0xFF)), some a)
        ∧ (pvoid a &&& (ptrmaskOf k ^^^ 0xFF)) % 256 = 0
        ∧ ∀ i : Nat, (pvoid a &&& (ptrmaskOf k ^^^ 0xFF)).testBit i
            = ((pvoid a).testBit i && (decide (8 ≤ i) && decide (i < 8 * k))) := by
  constructor
  · cases atR with
    | none => simp [canary_value]
    | some a => simp [canary_value]
  · intro a ha
    subst ha
    exact ⟨rfl, masked_canary_mod _ k hk, fun i => testBit_masked_canary _ k i hk⟩

/-- Witness for C1 at pointer size 4, `AT_RANDOM = 16`, memory value
`0xdeadbeef`. -/
theorem canary_value_spec_witness :
    1 ≤ 4
    ∧ canary_value (some 16) (fun _ => 0xdeadbeef) (ptrmaskOf 4) = (some 0xdeadbe00, some 16)
    ∧ (0xdeadbe00 : Nat) % 256 = 0 := by
  have h := (canary_value_spec (fun _ => 0xdeadbeef) 4 (by norm_num) (some 16)).2
    16 rfl
  refine ⟨by norm_num, ?_, by norm_num⟩
  rw [h.1]
  decide

/-- Claim C2: over key-unique, pairwise non-overlapping tracked Pages (the
spec's data-model invariant for distinct threads), the scan behind `find`
returns a Page `p` iff some tracked entry holds `p` and `p` contains the
address; at most one tracked entry contains any given address; and `find`
agrees with the scan whenever ranges are already known. -/
theorem find_contains_iff (ss : List (Ptid × Page)) (addr : Int)
    (hkeys : (ss.map Prod.fst).Nodup)
    (hdisj : ∀ e1 ∈ ss, ∀ e2 ∈ ss, e1.1 ≠ e2.1 →
      ∀ a : Int, ¬ (e1.2.containsP a ∧ e2.2.containsP a)) :
    (∀ p : Page, findInStacks ss addr = some p ↔ (∃ e ∈ ss, e.2 = p) ∧ p.containsP addr)
    ∧ (∀ e1 ∈ ss, ∀ e2 ∈ ss, e1.2.containsP addr → e2.2.containsP addr → e1 = e2)
    ∧ (∀ (env : UpdateEnv) (sel : Option Ptid) (nxv : Bool), ss ≠ [] →
        find env ⟨sel, ss, nxv⟩ addr = findInStacks ss addr) := by
  have huniq : ∀ e1 ∈ ss, ∀ e2 ∈ ss,
      e1.2.containsP addr → e2.2.containsP addr → e1 = e2 := by
    intro e1 h1 e2 h2 hc1 hc2
    by_cases hk : e1.1 = e2.1
    · exact entries_eq_of_same_key ss hkeys e1 e2 h1 h2 hk
    · exact absurd ⟨hc1, hc2⟩ (hdisj e1 h1 e2 h2 hk addr)
  refine ⟨?_, huniq, ?_⟩
  · intro p
    constructor
    · exact findInStacks_some_contains ss addr p
    · rintro ⟨⟨e, he, hep⟩, hcp⟩
      obtain ⟨e', he', hfind, hc'⟩ :=
        findInStacks_some_of_exists ss addr ⟨e, he, by rw [hep]; exact hcp⟩
      have heq : e' = e := huniq e' he' e he hc' (by rw [hep]; exact hcp)
      rw [hfind, heq, hep]
  · intro env sel nxv hne
    unfold find
    simp [hne]

/-- Witness for C2 on a one-entry map containing the queried address. -/
theorem find_contains_iff_witness :
    findInStacks [(⟨1, 1, 0⟩, ⟨0, 4096, 6, 0, some "[stack]"⟩)] 100
      = some ⟨0, 4096, 6, 0, some "[stack]"⟩ := by
  have hd : ∀ e1 ∈ [((⟨1, 1, 0⟩ : Ptid), (⟨0, 4096, 6, 0, some "[stack]"⟩ : Page))],
      ∀ e2 ∈ [((⟨1, 1, 0⟩ : Ptid), (⟨0, 4096, 6, 0, some "[stack]"⟩ : Page))],
      e1.1 ≠ e2.1 → ∀ a : Int, ¬ (e1.2.containsP a ∧ e2.2.containsP a) := by
    intro e1 h1 e2 h2 hne a
    simp only [List.mem_singleton] at h1 h2
    rw [h1, h2] at hne
    exact absurd rfl hne
  exact ((find_contains_iff _ 100 (by simp) hd).1 _).mpr
    ⟨⟨_, List.mem_singleton_self _, rfl⟩, ⟨by norm_num, by norm_num⟩⟩

/-- Claim C3: `find_addr_on_stack`, scanning upward from the stack pointer
in pointer-width steps within the current Page's bounds, returns `0` when
the target value is stored in no scanned slot below the Page's upper
bound, and otherwise returns the address of the first (lowest) slot whose
stored value equals the target. -/
theorem find_addr_on_stack_spec (mem : Int → Int) (addr : Int) (stack : Page)
    (ptrsize : Int) (hps : 0 < ptrsize) (sp : Int) (hsp : stack.vaddr ≤ sp) :
    ((∀ k : Nat, sp + k * ptrsize < stack.vaddr + stack.memsz →
        mem (sp + k * ptrsize) ≠ addr) →
      find_addr_on_stack mem addr stack ptrsize hps sp = 0)
    ∧ (∀ k : Nat, sp + k * ptrsize < stack.vaddr + stack.memsz →
        mem (sp + k * ptrsize) = addr →
        (∀ j : Nat, j < k → mem (sp + j * ptrsize) ≠ addr) →
        find_addr_on_stack mem addr stack ptrsize hps sp = sp + k * ptrsize) := by
  constructor
  · intro hnone
    exact scanStack_not_found mem addr _ _ ptrsize hps
      (stack.vaddr + stack.memsz - sp).toNat sp (le_refl _) hsp hnone
  · intro k hk heq hfirst
    exact scanStack_found mem addr _ _ ptrsize hps k sp hsp hk heq hfirst

/-- Witness for C3: the value 42 first occurs in slot 104 of a Page
`[96, 128)` scanned from `sp = 96` in 8-byte steps. -/
theorem find_addr_on_stack_spec_witness :
    (0 : Int) < 8
    ∧ find_addr_on_stack (fun a => if a = 104 then 42 else 0) 42 ⟨96, 32, 6, 0, none⟩ 8
        (by norm_num) 96 = 104 := by
  refine ⟨by norm_num, ?_⟩
  have h := (find_addr_on_stack_spec (fun a => if a = 104 then 42 else 0) 42
      ⟨96, 32, 6, 0, none⟩ 8 (by norm_num) 96 (by norm_num)).2 1
      (by norm_num) (by norm_num) (by decide)
  rw [h]
  norm_num

/-- Claim C4: across any `update()` run (with any interruption point),
each thread's tracked Page lower bound is monotonically non-increasing,
and whenever it decreases the size increases by the same amount (the
upper end `vaddr + memsz` is preserved). -/
theorem update_lower_bound_mono (env : UpdateEnv) (failAt : Option Nat) (s : GdbState)
    (k : Ptid) (p : Page) (h : dictGet s.stackRanges k = some p) :
    ∃ p', dictGet ((update env failAt s).1).stackRanges k = some p'
      ∧ p'.vaddr ≤ p.vaddr ∧ p'.vaddr + p'.memsz = p.vaddr + p.memsz := by
  rw [update_stackRanges]
  exact updateLoop_mono env failAt k env.threads 0 s p h

/-- Witness for C4: a tracked Page keeps its lower bound below or equal
after an `update()` that observes a lower stack pointer. -/
theorem update_lower_bound_mono_witness :
    ((dictGet ((update ⟨false, fun _ => false, [], [⟨⟨1, 1, 0⟩, some 0x7fff0500⟩]⟩ none
        ⟨none, [(⟨1, 1, 0⟩, ⟨0x7fff0000, 0x3000, 6, 0, some "[stack]"⟩)], false⟩).1).stackRanges
        ⟨1, 1, 0⟩).map Page.vaddr).getD 999 ≤ 0x7fff0000 := by
  obtain ⟨p', hget, hle, _⟩ := update_lower_bound_mono
    ⟨false, fun _ => false, [], [⟨⟨1, 1, 0⟩, some 0x7fff0500⟩]⟩ none
    ⟨none, [(⟨1, 1, 0⟩, ⟨0x7fff0000, 0x3000, 6, 0, some "[stack]"⟩)], false⟩ ⟨1, 1, 0⟩
    ⟨0x7fff0000, 0x3000, 6, 0, some "[stack]"⟩ rfl
  rw [hget]
  simpa using hle

/-- Claim C5: in the `canary` search loop, a thread with zero matches is
skipped; with `showAll = false` at most 2 matches per thread are
displayed and the truncation flag is set exactly when some thread had
more than 2 matches; with `showAll = true` all matches are displayed and
the flag stays false; the found-canary outcome is true iff some thread
had at least one match, independent of truncation. -/
theorem canary_spec (showAll : Bool) (threads : List (Ptid × List Int)) :
    canary showAll threads
      = (threads.any (fun th => !th.2.isEmpty),
         !showAll && threads.any (fun th => decide (2 < th.2.length)),
         (threads.filter (fun th => !th.2.isEmpty)).map
           (fun th => (th.1, th.2.take
             (if showAll then th.2.length else min 2 th.2.length))))
    ∧ ((canary showAll threads).1 = true ↔ ∃ th ∈ threads, th.2 ≠ [])
    ∧ (showAll = true → (canary showAll threads).2.1 = false)
    ∧ (showAll = false →
        ((canary showAll threads).2.1 = true ↔ ∃ th ∈ threads, 2 < th.2.length))
    ∧ (showAll = false → ∀ e ∈ (canary showAll threads).2.2, e.2.length ≤ 2)
    ∧ (showAll = true → (canary showAll threads).2.2
        = threads.filter (fun th => !th.2.isEmpty)) := by
  have hmain : canary showAll threads
      = (threads.any (fun th => !th.2.isEmpty),
         !showAll && threads.any (fun th => decide (2 < th.2.length)),
         (threads.filter (fun th => !th.2.isEmpty)).map
           (fun th => (th.1, th.2.take
             (if showAll then th.2.length else min 2 th.2.length)))) := by
    unfold canary
    rw [canaryLoop_eq]
    simp
  refine ⟨hmain, ?_, ?_, ?_, ?_, ?_⟩
  · rw [hmain]
    simp [List.any_eq_true]
  · intro hsa
    rw [hmain, hsa]
    simp
  · intro hsa
    rw [hmain, hsa]
    simp [List.any_eq_true]
  · intro hsa
    rw [hmain, hsa]
    intro e he
    simp only [List.mem_map] at he
    obtain ⟨th, _, hth⟩ := he
    rw [← hth]
    simp [List.length_take]
  · intro hsa
    rw [hmain, hsa]
    simp

/-- Witness for C5: the spec's example — 5 matches on one thread display
as 2 with truncation set when `showAll` is false, and all 5 with no
truncation when it is true. -/
theorem canary_spec_witness :
    canary false [(⟨1, 1, 0⟩, [10, 20, 30, 40, 50])]
        = (true, true, [(⟨1, 1, 0⟩, [10, 20])])
    ∧ canary true [(⟨1, 1, 0⟩, [10, 20, 30, 40, 50])]
        = (true, false, [(⟨1, 1, 0⟩, [10, 20, 30, 40, 50])]) := by
  constructor
  · rw [(canary_spec false [(⟨1, 1, 0⟩, [10, 20, 30, 40, 50])]).1]
    decide
  · rw [(canary_spec true [(⟨1, 1, 0⟩, [10, 20, 30, 40, 50])]).1]
    decide

/-- Claim C6: `is_executable()` returns false exactly when some program
header has type `PT_GNU_STACK`, and the Page created by `update()` then
carries permission value 6, and 7 when no such header exists. -/
theorem is_executable_spec (env : UpdateEnv) (t : GdbThread) (s : GdbState) (v : Int)
    (hv : t.sp = some v) (h0 : v ≠ 0) (hfresh : dictGet s.stackRanges t.ptid = none) :
    (is_executable env.phdrs = false ↔ PT_GNU_STACK ∈ env.phdrs)
    ∧ (dictGet (processThreadBody env t s).stackRanges t.ptid).map Page.flags
        = some (if PT_GNU_STACK ∈ env.phdrs then 6 else 7) := by
  have hbe : is_executable env.phdrs = false ↔ PT_GNU_STACK ∈ env.phdrs := by
    unfold is_executable nxOf
    simp [List.any_eq_true]
  refine ⟨hbe, ?_⟩
  obtain ⟨tptid, tsp⟩ := t
  replace hv : tsp = some v := hv
  subst hv
  rw [processThreadBody_fresh env tptid v s h0 hfresh]
  show (dictGet (dictSet s.stackRanges tptid (newPage env v)) tptid).map Page.flags = _
  rw [dictGet_dictSet_self]
  unfold newPage
  by_cases hmem : PT_GNU_STACK ∈ env.phdrs
  · rw [if_pos hmem, hbe.mpr hmem]
    rfl
  · have hex : is_executable env.phdrs = true := by
      cases hie : is_executable env.phdrs
      · exact absurd (hbe.mp hie) hmem
      · rfl
    rw [if_neg hmem, hex]
    rfl

/-- Witness for C6: a `PT_GNU_STACK` header yields a permission-6 Page. -/
theorem is_executable_spec_witness :
    (dictGet (processThreadBody ⟨true, fun _ => false, [0x6474E551], []⟩
        ⟨⟨1, 1, 0⟩, some 0x7fff1234⟩ ⟨none, [], false⟩).stackRanges ⟨1, 1, 0⟩).map Page.flags
      = some 6 := by
  have h := (is_executable_spec ⟨true, fun _ => false, [0x6474E551], []⟩
      ⟨⟨1, 1, 0⟩, some 0x7fff1234⟩ ⟨none, [], false⟩ 0x7fff1234 rfl (by norm_num) rfl).2
  rw [h]
  decide

/-- Claim C7: `clear()` empties the map and resets the executable flag;
afterwards the tracked ranges contain nothing — a direct scan returns
none for every address — and the only way `find` can return a Page after
`clear()` is through the `update()` it itself triggers on the emptied
map, whose result it then scans. -/
theorem clear_find_none (s : GdbState) (env : UpdateEnv) (addr : Int) :
    (clear s).stackRanges = [] ∧ (clear s).nx = false
    ∧ findInStacks (clear s).stackRanges addr = none
    ∧ find env (clear s) addr
        = findInStacks ((update env none (clear s)).1).stackRanges addr := by
  refine ⟨rfl, rfl, rfl, ?_⟩
  unfold find clear
  simp

/-- Claim C8 fails on the code: `update()` labels a freshly created Page
with the literal `"[stack]"` even for a non-leader thread (here pid 1,
tid 2), because creation passes that label directly and the
leader-dependent relabeling branch requires a `None` label, which created
Pages never have. -/
theorem update_page_label_counterexample :
    (dictGet (update ⟨false, fun _ => false, [], [⟨⟨1, 2, 0⟩, some 0x7fff1234⟩]⟩ none
        ⟨none, [], false⟩).1.stackRanges ⟨1, 2, 0⟩).map Page.objfile
      = some (some "[stack]")
    ∧ (1 : Int) ≠ 2 ∧ ("[stack]" : String) ≠ "[stack:2]" := by
  refine ⟨by decide, by decide, by decide⟩

/-- Claim C8 amended: a Page created by `update()` always carries the
label `"[stack]"` regardless of leader status; the leader-dependent
labeling (`"[stack]"` for `pid = tid`, `"[stack:<tid>]"` otherwise)
applies only to a pre-existing entry whose label is `None`, and a
pre-existing label is kept unchanged. -/
theorem update_page_label (env : UpdateEnv) (t : GdbThread) (s : GdbState) (v : Int)
    (hv : t.sp = some v) (h0 : v ≠ 0) :
    (dictGet s.stackRanges t.ptid = none →
      (dictGet (processThreadBody env t s).stackRanges t.ptid).map Page.objfile
        = some (some "[stack]"))
    ∧ (∀ p, dictGet s.stackRanges t.ptid = some p → p.objfile = none →
        (dictGet (processThreadBody env t s).stackRanges t.ptid).map Page.objfile
          = some (some (if t.ptid.pid = t.ptid.tid then "[stack]"
              else "[stack:" ++ toString t.ptid.tid ++ "]")))
    ∧ (∀ p o, dictGet s.stackRanges t.ptid = some p → p.objfile = some o →
        (dictGet (processThreadBody env t s).stackRanges t.ptid).map Page.objfile
          = some (some o)) := by
  obtain ⟨tptid, tsp⟩ := t
  replace hv : tsp = some v := hv
  subst hv
  refine ⟨?_, ?_, ?_⟩
  · intro hfresh
    rw [processThreadBody_fresh env tptid v s h0 hfresh]
    show (dictGet (dictSet s.stackRanges tptid (newPage env v)) tptid).map Page.objfile = _
    rw [dictGet_dictSet_self]
    rfl
  · intro p hget hob
    rw [processThreadBody_known env tptid v s p h0 hget]
    show (dictGet (dictSet s.stackRanges tptid
        (updatedPage ⟨tptid, some v⟩ v p)) tptid).map Page.objfile = _
    rw [dictGet_dictSet_self]
    simp only [Option.map_some']
    rw [updatedPage_objfile_none ⟨tptid, some v⟩ v p hob]
  · intro p o hget hob
    rw [processThreadBody_known env tptid v s p h0 hget]
    show (dictGet (dictSet s.stackRanges tptid
        (updatedPage ⟨tptid, some v⟩ v p)) tptid).map Page.objfile = _
    rw [dictGet_dictSet_self]
    simp only [Option.map_some']
    rw [updatedPage_objfile_some ⟨tptid, some v⟩ v p o hob]

/-- Witness for C8's amended statement: a fresh non-leader thread's Page
is labeled `"[stack]"`. -/
theorem update_page_label_witness :
    (dictGet (processThreadBody ⟨false, fun _ => false, [], []⟩ ⟨⟨1, 2, 0⟩, some 0x7fff1234⟩
        ⟨none, [], false⟩).stackRanges ⟨1, 2, 0⟩).map Page.objfile = some (some "[stack]") :=
  (update_page_label ⟨false, fun _ => false, [], []⟩ ⟨⟨1, 2, 0⟩, some 0x7fff1234⟩
    ⟨none, [], false⟩ 0x7fff1234 rfl (by norm_num)).1 rfl

/-- Claim C9 fails on the code: when no thread was selected before
`update()` (gdb's `selected_thread()` returned `None`), the `finally`
guard `if curr_thread:` skips restoration, so `update()` exits with the
last iterated thread selected and the selected-thread state differs from
the state before the call. -/
theorem update_restore_counterexample :
    (⟨none, [], false⟩ : GdbState).selected = none
    ∧ (update ⟨false, fun _ => false, [], [⟨⟨3, 4, 0⟩, some 0x7fff2000⟩]⟩ none
        ⟨none, [], false⟩).1.selected = some ⟨3, 4, 0⟩ :=
  ⟨rfl, by decide⟩

/-- Claim C9 amended: whenever some thread was selected before the call,
`update()` restores it on every exit path — for every interruption point
`failAt`, including an uninterrupted run — so the selected thread after
the call equals the one before. -/
theorem update_restores_selected (env : UpdateEnv) (failAt : Option Nat) (s : GdbState)
    (t0 : Ptid) (h : s.selected = some t0) :
    ((update env failAt s).1).selected = some t0 := by
  unfold update
  rw [h]

/-- Witness for C9's amended statement: the selected thread survives an
`update()` interrupted at its first iteration. -/
theorem update_restores_selected_witness :
    (update ⟨false, fun _ => false, [], [⟨⟨3, 4, 0⟩, some 0x7fff2000⟩]⟩ (some 0)
        ⟨some ⟨9, 9, 0⟩, [], false⟩).1.selected = some ⟨9, 9, 0⟩ :=
  update_restores_selected ⟨false, fun _ => false, [], [⟨⟨3, 4, 0⟩, some 0x7fff2000⟩]⟩
    (some 0) ⟨some ⟨9, 9, 0⟩, [], false⟩ ⟨9, 9, 0⟩ rfl

/-- Claim C10: when `update()` creates a Page for a thread with a nonzero
stack pointer and no existing entry (and the pointer's page is mapped
when probing applies), the observed stack pointer lies inside the created
Page: the lower bound sits one page plus the alignment remainder below
the pointer, the upper bound is at least one page above the page-aligned
pointer, and the scan behind `find` succeeds at the stack pointer after
the rest of the update loop runs. -/
theorem update_new_page_contains (env : UpdateEnv) (t : GdbThread) (s : GdbState) (v : Int)
    (hv : t.sp = some v) (h0 : v ≠ 0)
    (hfresh : dictGet s.stackRanges t.ptid = none)
    (hmap : env.linux = true → env.mapped (page_align v) = true) :
    ∃ p, dictGet (processThreadBody env t s).stackRanges t.ptid = some p
      ∧ p.vaddr = v - v % 4096 - 4096
      ∧ page_align v + PAGE_SIZE ≤ p.vaddr + p.memsz
      ∧ p.containsP v
      ∧ ∀ (ts : List GdbThread) (i : Nat) (failAt : Option Nat),
          (findInStacks ((updateLoop env failAt i ts
              (processThreadBody env t s)).1).stackRanges v).isSome = true := by
  obtain ⟨tptid, tsp⟩ := t
  replace hv : tsp = some v := hv
  subst hv
  rw [processThreadBody_fresh env tptid v s h0 hfresh]
  have htop : (newPage env v).vaddr + (newPage env v).memsz
      = find_upper_stack_boundary env v 1024 := by
    show page_align v - 0x1000 + (find_upper_stack_boundary env v 1024
      - (page_align v - 0x1000)) = find_upper_stack_boundary env v 1024
    ring
  have hupper : page_align v + PAGE_SIZE ≤ (newPage env v).vaddr + (newPage env v).memsz := by
    rw [htop]
    unfold find_upper_stack_boundary
    cases hl : env.linux
    · simp
    · simp only [ite_true, if_pos]
      exact find_upper_boundary_step env.mapped 1023 (page_align v) (hmap hl)
  have hmod1 : 0 ≤ v % 4096 := Int.emod_nonneg v (by norm_num)
  have hmod2 : v % 4096 < 4096 := Int.emod_lt_of_pos v (by norm_num)
  have hvaddr : (newPage env v).vaddr = v - v % 4096 - 4096 := rfl
  have hcont : (newPage env v).containsP v := by
    constructor
    · rw [hvaddr]
      omega
    · have : page_align v + PAGE_SIZE ≤ (newPage env v).vaddr + (newPage env v).memsz :=
        hupper
      unfold page_align PAGE_SIZE at this
      omega
  have hget : dictGet (dictSet s.stackRanges tptid (newPage env v)) tptid
      = some (newPage env v) := dictGet_dictSet_self _ _ _
  refine ⟨newPage env v, hget, hvaddr, hupper, hcont, ?_⟩
  intro ts i failAt
  apply findInStacks_isSome_of_exists
  apply updateLoop_contains
  exact ⟨(tptid, newPage env v), dictGet_mem _ _ _ hget, hcont⟩

/-- Witness for C10: after creating the Page for `sp = 0x7fff1234` the
scan finds a Page containing the stack pointer. -/
theorem update_new_page_contains_witness :
    (findInStacks ((updateLoop ⟨false, fun _ => false, [], []⟩ none 0 []
        (processThreadBody ⟨false, fun _ => false, [], []⟩ ⟨⟨1, 1, 0⟩, some 0x7fff1234⟩
          ⟨none, [], false⟩)).1).stackRanges 0x7fff1234).isSome = true := by
  obtain ⟨p, _, _, _, _, hfind⟩ := update_new_page_contains ⟨false, fun _ => false, [], []⟩
    ⟨⟨1, 1, 0⟩, some 0x7fff1234⟩ ⟨none, [], false⟩ 0x7fff1234 rfl (by norm_num) rfl
    (by intro h; simp at h)
  exact hfind [] 0 none

end Pwndbg
